import Mathlib

/-!
Verification of the Dark Colony multiplayer game server (app.js together with
protocol_commands.js).

Bytes are modelled as natural numbers below 256; byte buffers as lists of
naturals.  JavaScript bitwise operators on nonnegative integers coincide with
the corresponding Nat operators.  The per-connection outbound packet counter
is modelled as the raw value stored in the socket field named packetCounter
(a multiple of 16 between 0x00 and 0xF0).

The inbound frame-scanning while loop of parseClientBinary is embedded with
explicit fuel, because the source loop does not always terminate: when the
two header bytes encode length 0 the loop never advances its offset.  A
result of none means the loop did not finish within the given fuel; the
wrapper collectCommands supplies fuel sufficient for every terminating run.
-/

set_option maxRecDepth 4000

namespace DarkColony

/-! ## Frame codec (app.js, sendCommandPacket and parseClientBinary STEP 1) -/

/-- Reading of the two header bytes at an offset, from parseClientBinary:
lenLow is the byte at the offset, lenHigh the next byte masked with 0x0f, and
the command length is lenLow bitwise-or lenHigh shifted left by 8. -/
def readCmdLength (buf : List Nat) (offset : Nat) : Nat :=
  let lenLow := buf.getD offset 0
  let lenHigh := (buf.getD (offset + 1) 0) &&& 0x0f
  lenLow ||| (lenHigh <<< 8)

/-- The STEP 1 while loop of parseClientBinary, with explicit fuel.  Each
iteration: stop when the offset reaches the end; break when fewer than two
header bytes remain; read the command length; break when the full command is
not available; otherwise push the bytes strictly between the header and the
end of the command and advance the offset by the command length. -/
def collectCommandsAux : Nat → List Nat → Nat → List (List Nat) → Option (List (List Nat))
  | 0, _, _, _ => none
  | fuel + 1, buf, offset, acc =>
    if offset < buf.length then
      if offset + 2 > buf.length then some acc.reverse
      else
        let cmdLength := readCmdLength buf offset
        if offset + cmdLength > buf.length then some acc.reverse
        else
          collectCommandsAux fuel buf (offset + cmdLength)
            (((buf.drop (offset + 2)).take (cmdLength - 2)) :: acc)
    else some acc.reverse

/-- Command list collected from one received chunk.  Since every iteration of
a terminating run advances the offset by at least one, length-plus-one units
of fuel are enough for every run of the source loop that terminates; none is
returned exactly when the source loop spins forever. -/
def collectCommands (buf : List Nat) : Option (List (List Nat)) :=
  collectCommandsAux (buf.length + 1) buf 0 []

/-- Processing of a sequence of TCP chunks: app.js invokes parseClientBinary
once per received chunk, on that chunk alone (the string field named buffer
is never consulted by the binary parser), so the dispatched commands are the
concatenation of the per-chunk command lists. -/
def parseChunks : List (List Nat) → Option (List (List Nat))
  | [] => some []
  | chunk :: rest =>
    match collectCommands chunk, parseChunks rest with
    | some cmds, some more => some (cmds ++ more)
    | _, _ => none

/-- The ROOM_COMMANDS table from protocol_commands.js, in object-entry
order. -/
def ROOM_COMMANDS : List (String × List Nat) :=
  [("initial_packet", [0x64]),
   ("begin_battle", [0x76]),
   ("ping", [0x71]),
   ("player_ready", [0x68]),
   ("player_name", [0x67]),
   ("player_chat", [0x65]),
   ("player_race", [0x66]),
   ("player_type", [0x6a]),
   ("player_color", [0x6b]),
   ("player_init", [0x6c]),
   ("player_team", [0x6d]),
   ("player_team2", [0x6e]),
   ("room_param", [0x6f]),
   ("room_erupting_vents", [0x6f, 0x02, 0x00]),
   ("room_renewable_vents", [0x6f, 0x03, 0x00]),
   ("room_map", [0x69]),
   ("battle_ping1", [0x02]),
   ("battle_ping2", [0x08]),
   ("button_building", [0x09]),
   ("button_unit", [0x0a]),
   ("button_upgrade", [0x0c]),
   ("button_superweapon", [0x0d]),
   ("battle_chat", [0x0e]),
   ("battle_ping3_data", [0x11]),
   ("battle_ping3", [0x12]),
   ("game_speed", [0x13]),
   ("unit_destination_data", [0x14]),
   ("unit_destination", [0x15]),
   ("unit_attack", [0x18]),
   ("unit_move", [0x19]),
   ("unit_inspire", [0x1a])]

/-- STEP 2 opcode matching of parseClientBinary: the first table entry whose
byte pattern is an initial segment of the command data. -/
def matchCommand (commandData : List Nat) : Option String :=
  (ROOM_COMMANDS.find? (fun p =>
    p.2.length ≤ commandData.length && commandData.take p.2.length == p.2)).map (·.1)

/-- Number of commands in a list that dispatch to the player_name branch. -/
def countPlayerName (cmds : List (List Nat)) : Nat :=
  (cmds.filter (fun cd => matchCommand cd == some "player_name")).length

/-- Stripping of one trailing 0x00 from the data of a single command, as done
at the top of the STEP 2 dispatch of parseClientBinary. -/
def stripTrailingZero (remaining : List Nat) : List Nat :=
  if remaining.length > 0 && remaining.getLast? == some 0 then
    remaining.take (remaining.length - 1)
  else remaining

/-- The outbound packet builder sendCommandPacket of app.js, restricted to
the paths exercised by the server: the command and data bytes are already
concatenated into the payload.  Takes the current stored per-socket counter
value; returns the packet (none when the packet is dropped as overlong) and
the new stored counter value. -/
def sendCommandPacket (counter : Nat) (payload : List Nat) : Option (List Nat) × Nat :=
  let totalLen := 2 + payload.length + 1
  if totalLen > 0x0FFF then (none, counter)
  else
    let lenLow := totalLen &&& 0xFF
    let lenHigh := (totalLen >>> 8) &&& 0x0F
    let counterNibble := (counter >>> 4) &&& 0x0F
    let counterByte := (counterNibble <<< 4) ||| lenHigh
    let counter' := if counter + 0x10 > 0xF0 then 0 else counter + 0x10
    (some ([lenLow, counterByte] ++ payload ++ [0x00]), counter')

/-- Sending of a sequence of payloads on one connection, threading the stored
counter through sendCommandPacket. -/
def sendPackets : Nat → List (List Nat) → List (Option (List Nat)) × Nat
  | counter, [] => ([], counter)
  | counter, p :: rest =>
    let r := sendCommandPacket counter p
    let tail := sendPackets r.2 rest
    (r.1 :: tail.1, tail.2)

/-! ## Arithmetic helper lemmas for the codec -/

theorem nibble_or_and : ∀ c < 16, ∀ h < 16, ((c <<< 4) ||| h) &&& 15 = h := by decide

theorem nibble_or_shift : ∀ c < 16, ∀ h < 16, ((c <<< 4) ||| h) >>> 4 = c := by decide

theorem or_low_high : ∀ q < 16, ∀ r < 256, r ||| (q <<< 8) = 256 * q + r := by decide

theorem and_255_eq_mod (t : Nat) : t &&& 255 = t % 256 := by
  have := Nat.and_pow_two_sub_one_eq_mod t 8
  norm_num at this
  exact this

theorem shiftRight_8_eq_div (t : Nat) : t >>> 8 = t / 256 := by
  have := Nat.shiftRight_eq_div_pow t 8
  norm_num at this
  exact this

theorem and_15_eq_mod (t : Nat) : t &&& 15 = t % 16 := by
  have := Nat.and_pow_two_sub_one_eq_mod t 4
  norm_num at this
  exact this

theorem lenRoundTrip (t : Nat) (ht : t < 4096) :
    (t &&& 255) ||| (((t >>> 8) &&& 15) <<< 8) = t := by
  have h255 : t &&& 255 = t % 256 := and_255_eq_mod t
  have hshift : t >>> 8 = t / 256 := shiftRight_8_eq_div t
  have hdivlt : t / 256 < 16 := by omega
  have h15 : (t / 256) &&& 15 = t / 256 := by
    rw [and_15_eq_mod]
    omega
  rw [h255, hshift, h15]
  have := or_low_high (t / 256) hdivlt (t % 256) (Nat.mod_lt t (by norm_num))
  omega

theorem highNibbleLt (t : Nat) : (t >>> 8) &&& 15 < 16 := by
  rw [and_15_eq_mod]; omega

theorem shiftLeft4_shiftRight4 (c : Nat) : (c <<< 4) >>> 4 = c := by
  rw [Nat.shiftLeft_eq, Nat.shiftRight_eq_div_pow]
  norm_num

/-- Parsing a single well-formed packet whose header encodes the body length
plus two recovers exactly the body. -/
theorem parse_single_packet (Q : List Nat) (c : Nat) (hc : c < 16) (hQ : Q.length + 2 < 4096) :
    collectCommands
      ([(Q.length + 2) &&& 255, (c <<< 4) ||| (((Q.length + 2) >>> 8) &&& 15)] ++ Q)
      = some [Q] := by
  have hlen : ([(Q.length + 2) &&& 255, (c <<< 4) ||| (((Q.length + 2) >>> 8) &&& 15)] ++ Q).length
      = Q.length + 2 := by simp
  have hread : readCmdLength
      ([(Q.length + 2) &&& 255, (c <<< 4) ||| (((Q.length + 2) >>> 8) &&& 15)] ++ Q) 0
      = Q.length + 2 := by
    rw [readCmdLength]
    simp only [List.cons_append, List.getD_cons_zero, List.getD_cons_succ]
    rw [nibble_or_and c hc _ (highNibbleLt _)]
    exact lenRoundTrip _ hQ
  rw [collectCommands, hlen]
  rw [collectCommandsAux]
  rw [if_pos (by rw [hlen]; omega)]
  rw [if_neg (by rw [hlen]; omega)]
  simp only [hread]
  rw [if_neg (by rw [hlen]; omega)]
  have hdrop : ([(Q.length + 2) &&& 255, (c <<< 4) ||| (((Q.length + 2) >>> 8) &&& 15)] ++ Q).drop (0 + 2) = Q := by
    simp
  rw [hdrop]
  have htake : Q.take (Q.length + 2 - 2) = Q := by simp
  rw [htake]
  have hfuel : Q.length + 2 = (Q.length + 1) + 1 := by omega
  rw [hfuel, collectCommandsAux]
  rw [if_neg (by rw [hlen]; omega)]
  rfl

/-- C2: for a payload of at most 4092 bytes and any counter nibble,
sendCommandPacket emits a packet whose first byte is the low byte of the
total length, whose second byte combines the counter nibble with the high
length nibble, and whose last byte is the 0x00 terminator; the STEP 1 frame
scan of parseClientBinary recovers exactly the payload followed by its
terminator as the one dispatched command, and the dispatch-level strip of
the trailing 0x00 yields the payload back. -/
theorem C2_frame_round_trip (P : List Nat) (c : Nat) (hP : P.length ≤ 4092) (hc : c < 16) :
    ∃ pkt, (sendCommandPacket (c <<< 4) P).1 = some pkt ∧
      pkt.getD 0 0 = (P.length + 3) &&& 0xFF ∧
      pkt.getD 1 0 = (c <<< 4) ||| ((P.length + 3) >>> 8) ∧
      pkt.getLast? = some 0x00 ∧
      collectCommands pkt = some [P ++ [0x00]] ∧
      stripTrailingZero (P ++ [0x00]) = P := by
  have h3 : 2 + P.length + 1 = P.length + 3 := by omega
  have ht : P.length + 3 < 4096 := by omega
  have hnib : ((c <<< 4) >>> 4) &&& 15 = c := by
    rw [shiftLeft4_shiftRight4, and_15_eq_mod]; omega
  have hhigh_eq : ((P.length + 3) >>> 8) &&& 15 = (P.length + 3) >>> 8 := by
    rw [shiftRight_8_eq_div, and_15_eq_mod]; omega
  have hsend : (sendCommandPacket (c <<< 4) P).1 =
      some ([(P.length + 3) &&& 255, (c <<< 4) ||| (((P.length + 3) >>> 8) &&& 15)] ++ (P ++ [0])) := by
    simp only [sendCommandPacket, h3]
    rw [if_neg (by omega)]
    simp only [hnib, List.append_assoc]
  refine ⟨_, hsend, ?_, ?_, ?_, ?_, ?_⟩
  · simp only [List.cons_append, List.getD_cons_zero]
  · simp only [List.cons_append, List.getD_cons_succ, List.getD_cons_zero, hhigh_eq]
  · rw [show ([(P.length + 3) &&& 255, (c <<< 4) ||| (((P.length + 3) >>> 8) &&& 15)] ++ (P ++ [0]))
        = ([(P.length + 3) &&& 255, (c <<< 4) ||| (((P.length + 3) >>> 8) &&& 15)] ++ P) ++ [0]
      from (List.append_assoc _ _ _).symm]
    rw [List.getLast?_concat]
  · have happ : (P ++ [(0 : Nat)]).length + 2 = P.length + 3 := by simp
    have := parse_single_packet (P ++ [0]) c hc (by rw [happ]; omega)
    rw [happ] at this
    exact this
  · rw [stripTrailingZero]
    rw [if_pos]
    · simp
    · simp

/-- Witness for C2 at the one-byte ping payload and counter nibble 0. -/
theorem C2_frame_round_trip_witness :
    ([0x71] : List Nat).length ≤ 4092 ∧ (0 : Nat) < 16 ∧
    (∃ pkt, (sendCommandPacket (0 <<< 4) [0x71]).1 = some pkt ∧
      pkt.getD 0 0 = (([0x71] : List Nat).length + 3) &&& 0xFF ∧
      pkt.getD 1 0 = (0 <<< 4) ||| ((([0x71] : List Nat).length + 3) >>> 8) ∧
      pkt.getLast? = some 0x00 ∧
      collectCommands pkt = some [[0x71] ++ [0x00]] ∧
      stripTrailingZero ([0x71] ++ [0x00]) = [0x71]) := by
  exact ⟨by decide, by decide, C2_frame_round_trip [0x71] 0 (by decide) (by decide)⟩

/-- Concrete 14-byte player_name frame: length header 0x0e 0x00, opcode 0x67,
ordinal 0x01, separator 0x00, seven name bytes, name terminator and frame
terminator. -/
def playerNameFrame14 : List Nat :=
  [0x0e, 0x00, 0x67, 0x01, 0x00, 0x41, 0x41, 0x41, 0x41, 0x41, 0x41, 0x41, 0x00, 0x00]

/-- C1: delivering the 14-byte player_name frame whole dispatches exactly one
player_name command, but delivering it in two TCP chunks of 5 and 9 bytes
dispatches none: parseClientBinary is invoked per chunk, the first chunk is
broken out of with its bytes discarded, and the second chunk is misread as a
fresh header.  This refutes the claimed chunking-independence. -/
theorem C1_fragmented_frame_dropped :
    (parseChunks [playerNameFrame14]).map countPlayerName = some 1 ∧
    (parseChunks [playerNameFrame14.take 5, playerNameFrame14.drop 5]).map countPlayerName
      = some 0 := by
  decide

/-- C10: the STEP 1 frame-scanning loop of parseClientBinary does not
terminate on the two-byte buffer 0x00 0x00: its header encodes command
length 0, the offset never advances, and no amount of fuel completes the
loop.  This refutes the claimed termination on every finite buffer. -/
theorem C10_parse_loop_diverges_on_zero_length :
    (∀ fuel acc, collectCommandsAux fuel [0, 0] 0 acc = none) ∧
    collectCommands [0, 0] = none := by
  have h : ∀ fuel acc, collectCommandsAux fuel [0, 0] 0 acc = none := by
    intro fuel
    induction fuel with
    | zero => intro acc; rfl
    | succ n ih =>
      intro acc
      simp only [collectCommandsAux, readCmdLength, List.length_cons, List.length_nil]
      norm_num
      exact ih _
  exact ⟨h, h _ _⟩

theorem mul16_shiftRight4 (n : Nat) : (16 * n) >>> 4 = n := by
  rw [Nat.shiftRight_eq_div_pow]
  norm_num

/-- Starting from a stored counter that is sixteen times a nibble, the k-th
emitted packet carries nibble (m + k) mod 16 in the high half of its second
byte, and the stored counter threads as sixteen times the running nibble. -/
theorem sendPackets_nibble : ∀ (payloads : List (List Nat)) (m : Nat),
    (∀ p ∈ payloads, p.length ≤ 4092) → ∀ k < payloads.length,
    ∃ pkt, (sendPackets (16 * (m % 16)) payloads).1.get? k = some (some pkt) ∧
      (pkt.getD 1 0) >>> 4 = (m + k) % 16 := by
  intro payloads
  induction payloads with
  | nil => intro m _ k hk; simp at hk
  | cons p rest ih =>
    intro m hlen k hk
    have hp : p.length ≤ 4092 := hlen p (by simp)
    have hnotlong : ¬ (2 + p.length + 1 > 0x0FFF) := by omega
    have hnib : ((16 * (m % 16)) >>> 4) &&& 15 = m % 16 := by
      rw [mul16_shiftRight4, and_15_eq_mod]
      omega
    have hstep : (if 16 * (m % 16) + 0x10 > 0xF0 then 0 else 16 * (m % 16) + 0x10)
        = 16 * ((m + 1) % 16) := by
      split_ifs <;> omega
    match k with
    | 0 =>
      refine ⟨[(2 + p.length + 1) &&& 255,
        ((m % 16) <<< 4) ||| (((2 + p.length + 1) >>> 8) &&& 15)] ++ p ++ [0], ?_, ?_⟩
      · show (sendPackets (16 * (m % 16)) (p :: rest)).1.get? 0 = _
        rw [sendPackets]
        simp only [List.get?_cons_zero]
        rw [sendCommandPacket]
        rw [if_neg hnotlong]
        simp only [hnib]
      · simp only [List.cons_append, List.getD_cons_succ, List.getD_cons_zero]
        rw [nibble_or_shift (m % 16) (by omega) _ (highNibbleLt _)]
        omega
    | k + 1 =>
      have hrest : ∀ q ∈ rest, q.length ≤ 4092 := fun q hq => hlen q (by simp [hq])
      have hk' : k < rest.length := by simpa using hk
      obtain ⟨pkt, hpkt, hnibk⟩ := ih (m + 1) hrest k hk'
      refine ⟨pkt, ?_, ?_⟩
      · rw [sendPackets]
        simp only [List.get?_cons_succ]
        have hcounter : (sendCommandPacket (16 * (m % 16)) p).2 = 16 * ((m + 1) % 16) := by
          rw [sendCommandPacket]
          rw [if_neg hnotlong]
          exact hstep
        rw [hcounter]
        exact hpkt
      · rw [hnibk]
        congr 1
        omega

/-- C4: on a connection whose stored counter starts at 0, the k-th packet
sent (zero-indexed) carries counter nibble k mod 16 in the high nibble of
its second header byte: the counter advances by one nibble per sent packet
and wraps from 15 back to 0. -/
theorem C4_counter_nibbles (payloads : List (List Nat))
    (hlen : ∀ p ∈ payloads, p.length ≤ 4092) :
    ∀ k < payloads.length,
      ∃ pkt, (sendPackets 0 payloads).1.get? k = some (some pkt) ∧
        (pkt.getD 1 0) >>> 4 = k % 16 := by
  intro k hk
  have := sendPackets_nibble payloads 0 hlen k hk
  simpa using this

/-- Witness for C4: two one-byte payloads; the second packet carries
nibble 1. -/
theorem C4_counter_nibbles_witness :
    ∃ pkt, (sendPackets 0 [[0x65], [0x65]]).1.get? 1 = some (some pkt) ∧
      (pkt.getD 1 0) >>> 4 = 1 % 16 :=
  C4_counter_nibbles [[0x65], [0x65]] (by decide) 1 (by decide)

/-! ## Room and session state model (app.js room management and dispatch)

Races at room creation and the random slot and color fallbacks are chosen by
Math.random in the source; they are passed as explicit parameters (a race
oracle and natural seeds reduced modulo the candidate count).  JavaScript
Maps are modelled as association lists in insertion order; object mutation
is modelled by rebuilding the map entry. -/

inductive Race
  | humans
  | aliens
deriving DecidableEq, Repr

inductive PlayerType
  | ai_easy
  | ai_hard
  | gamer
  | none
deriving DecidableEq, Repr

def strBytes (s : String) : List Nat := s.toList.map Char.toNat

structure Slot where
  index : Nat
  clientId : Option Nat
  name : List Nat
  race : Race
  type : PlayerType
  team : Nat
  ready : Bool
  color : Nat
deriving DecidableEq, Repr

structure Room where
  id : Nat
  clients : List Nat
  inBattle : Bool
  playerSlots : List Slot
deriving DecidableEq, Repr

structure Client where
  id : Nat
  roomId : Option Nat
  playerSlotIndex : Option Nat
  battleInitiated : Bool
deriving DecidableEq, Repr

structure ServerState where
  clients : List (Nat × Client)
  rooms : List (Nat × Room)
deriving DecidableEq, Repr

structure Msg where
  recipient : Nat
  command : List Nat
  data : List Nat
deriving DecidableEq, Repr

def updateMap {α : Type} (k : Nat) (v : α) : List (Nat × α) → List (Nat × α)
  | [] => []
  | p :: rest => (if p.1 == k then (k, v) else p) :: updateMap k v rest

def findFreeRoomIdAux (keys : List Nat) : Nat → Nat → Nat
  | 0, r => r
  | f + 1, r => if keys.contains r then findFreeRoomIdAux keys f (r + 1) else r

def lowestFreeId (keys : List Nat) : Nat :=
  findFreeRoomIdAux keys (keys.foldr max 0 + 1) 1

def createRoom (races : Nat → Race) (rooms : List (Nat × Room)) : Room × List (Nat × Room) :=
  let roomId := lowestFreeId (rooms.map (·.1))
  let playerSlots : List Slot := [
    { index := 0, clientId := Option.none, name := strBytes "spectator", race := races 0,
      type := PlayerType.gamer, team := 0, ready := false, color := 0 },
    { index := 1, clientId := Option.none, name := strBytes "Player1", race := races 1,
      type := PlayerType.none, team := 1, ready := true, color := 1 },
    { index := 2, clientId := Option.none, name := strBytes "Player2", race := races 2,
      type := PlayerType.none, team := 2, ready := true, color := 2 },
    { index := 3, clientId := Option.none, name := strBytes "Player3", race := races 3,
      type := PlayerType.none, team := 3, ready := true, color := 3 },
    { index := 4, clientId := Option.none, name := strBytes "Player4", race := races 4,
      type := PlayerType.none, team := 4, ready := true, color := 4 },
    { index := 5, clientId := Option.none, name := strBytes "Player5", race := races 5,
      type := PlayerType.none, team := 5, ready := true, color := 5 },
    { index := 6, clientId := Option.none, name := strBytes "Player6", race := races 6,
      type := PlayerType.none, team := 6, ready := true, color := 6 },
    { index := 7, clientId := Option.none, name := strBytes "Player7", race := races 7,
      type := PlayerType.none, team := 7, ready := true, color := 7 }]
  let room : Room := { id := roomId, clients := [], inBattle := false, playerSlots := playerSlots }
  (room, rooms ++ [(roomId, room)])

def isFreeSlot (slot : Slot) : Bool :=
  slot.clientId == Option.none && slot.type == PlayerType.none

def getAvailableRoom (races : Nat → Race) (rooms : List (Nat × Room)) :
    Room × List (Nat × Room) :=
  let availableRooms := (rooms.map (·.2)).filter (fun room =>
    !room.inBattle && (room.playerSlots.filter isFreeSlot).length > 0)
  match (availableRooms.mergeSort (fun a b => a.id ≤ b.id)).head? with
  | some r => (r, rooms)
  | Option.none => createRoom races rooms

def getFreeSlotInRoom (rnd : Nat) (room : Room) : Option Slot :=
  let freeSlots := room.playerSlots.filter isFreeSlot
  if freeSlots.length == 0 then Option.none
  else freeSlots.get? (rnd % freeSlots.length)

def isActiveSlot (slot : Slot) : Bool :=
  slot.type == PlayerType.gamer || slot.type == PlayerType.ai_easy || slot.type == PlayerType.ai_hard

/-- Colors currently in use by active players, from getAvailableColor. -/
def usedColors (room : Room) : List Nat :=
  (room.playerSlots.filter isActiveSlot).map (fun s => s.color)

def getAvailableColor (rndColor : Nat) (room : Room) : Nat :=
  match (List.range 8).find? (fun color => !((usedColors room).contains color)) with
  | some c => c
  | Option.none => rndColor % 8

/-- The slot mutation of addClientToRoom: the chosen free slot (identified by
its index field) is bound to the client, typed gamer, marked unready, and
given the available color; the room client set is replaced as well. -/
def assignSlotToClient (clientId slotIndex availableColor : Nat) (room : Room)
    (roomClients : List Nat) : Room :=
  { room with
    clients := roomClients,
    playerSlots := room.playerSlots.map (fun s =>
      if s.index == slotIndex then
        { s with
          clientId := some clientId, type := PlayerType.gamer, ready := false,
          color := availableColor }
      else s) }

def addClientToRoom (rnd rndColor clientId : Nat) (st : ServerState) (room : Room) :
    Option (Nat × Bool) × ServerState :=
  match getFreeSlotInRoom rnd room with
  | Option.none => (Option.none, st)
  | some slot =>
    let hadExistingClients := room.clients.length > 0
    let availableColor := getAvailableColor rndColor room
    let roomClients :=
      if room.clients.contains clientId then room.clients else room.clients ++ [clientId]
    match List.lookup clientId st.clients with
    | some client =>
      let client' := { client with roomId := some room.id, playerSlotIndex := some slot.index }
      let room' := assignSlotToClient clientId slot.index availableColor room roomClients
      (some (slot.index, hadExistingClients),
       { clients := updateMap clientId client' st.clients,
         rooms := updateMap room.id room' st.rooms })
    | Option.none =>
      let room' := { room with clients := roomClients }
      (some (slot.index, hadExistingClients),
       { st with rooms := updateMap room.id room' st.rooms })

def resetRoomBattleState (races : Nat → Race) (room : Room) : Room :=
  { room with
    inBattle := false,
    playerSlots := room.playerSlots.enum.map (fun p =>
      if p.1 == 0 then
        { p.2 with
          clientId := Option.none, name := strBytes "battle_bot", race := races 0,
          type := PlayerType.ai_hard, team := 0, ready := false, color := 0 }
      else
        { p.2 with
          clientId := Option.none, name := strBytes ("Player" ++ toString p.1),
          race := races p.1, type := PlayerType.none, team := p.1, ready := true,
          color := p.1 }) }

/-- The slot reset applied on departure: no client, empty type, ready. -/
def clearedSlot (slot : Slot) : Slot :=
  { slot with clientId := Option.none, type := PlayerType.none, ready := true }

def removeClientFromRoom (races : Nat → Race) (clientId : Nat) (st : ServerState) : ServerState :=
  match List.lookup clientId st.clients with
  | Option.none => st
  | some client =>
    match client.roomId with
    | Option.none => st
    | some rid =>
      match List.lookup rid st.rooms with
      | Option.none => st
      | some room =>
        let room1 := { room with clients := room.clients.filter (fun c => c != clientId) }
        let room2 : Room :=
          match client.playerSlotIndex with
          | some idx =>
            match room1.playerSlots.get? idx with
            | some slot =>
              { room1 with playerSlots := room1.playerSlots.set idx (clearedSlot slot) }
            | Option.none => room1
          | Option.none => room1
        if room2.clients.length > 0 then { st with rooms := updateMap rid room2 st.rooms }
        else
          let room3 := resetRoomBattleState races room2
          if room3.id > 1 then { st with rooms := st.rooms.filter (fun p => p.1 != rid) }
          else { st with rooms := updateMap rid room3 st.rooms }

def checkAllClientsInitiatedBattle (clientsMap : List (Nat × Client)) (room : Room) : Bool :=
  if room.clients.length == 0 then false
  else room.clients.all (fun cid =>
    match List.lookup cid clientsMap with
    | some c => c.battleInitiated
    | Option.none => false)

def startRoomBattle (room : Room) : Room := { room with inBattle := true }

def broadcastCommandPacket (clientsMap : List (Nat × Client)) (room : Room)
    (command data : List Nat) (excludeClientId : Option Nat) : List Msg :=
  room.clients.filterMap (fun cid =>
    if excludeClientId == some cid then Option.none
    else
      match List.lookup cid clientsMap with
      | some _ => some { recipient := cid, command := command, data := data }
      | Option.none => Option.none)

def player_name_cmd : List Nat := [0x67]

def player_ready_cmd : List Nat := [0x68]

def player_color_cmd : List Nat := [0x6b]

def game_speed_cmd : List Nat := [0x13]

def roomOfClient (st : ServerState) (client : Client) : Option (Nat × Room) :=
  match client.roomId with
  | some rid =>
    match List.lookup rid st.rooms with
    | some room => some (rid, room)
    | Option.none => Option.none
  | Option.none => Option.none

def sanitizeName (bs : List Nat) : List Nat :=
  (bs.filter (fun b => 0x20 ≤ b && b ≤ 0x7e)).take 32

def playerNameBranch (st : ServerState) (senderId : Nat) (remaining : List Nat) :
    Except String (ServerState × List Msg) :=
  if remaining.length ≥ 2 then
    let playerOrdinal := remaining.getD 0 0
    let nameTail := remaining.drop 2
    let nameBytes :=
      match nameTail.findIdx? (fun b => b == 0) with
      | some i => nameTail.take i
      | Option.none => nameTail
    match List.lookup senderId st.clients with
    | Option.none => Except.ok (st, [])
    | some client =>
      match roomOfClient st client with
      | Option.none => Except.ok (st, [])
      | some (rid, room) =>
        let room' : Room :=
          match room.playerSlots.get? playerOrdinal with
          | some slot =>
            let newName :=
              if (sanitizeName nameBytes).isEmpty then
                strBytes ("Player" ++ toString playerOrdinal)
              else sanitizeName nameBytes
            { room with
              playerSlots := room.playerSlots.set playerOrdinal
                { slot with name := newName } }
          | Option.none => room
        match room'.playerSlots.get? playerOrdinal with
        | Option.none => Except.error "TypeError: cannot read name of undefined slot"
        | some slot' =>
          let data := [playerOrdinal, 0] ++ slot'.name ++ [0]
          Except.ok ({ st with rooms := updateMap rid room' st.rooms },
            broadcastCommandPacket st.clients room' player_name_cmd data Option.none)
  else Except.ok (st, [])

def playerColorBranch (st : ServerState) (senderId : Nat) (remaining : List Nat) :
    ServerState × List Msg :=
  if remaining.length ≥ 2 then
    let colorValue := remaining.getD 0 0
    let playerOrdinal := remaining.getD 1 0
    match List.lookup senderId st.clients with
    | Option.none => (st, [])
    | some client =>
      match roomOfClient st client with
      | Option.none => (st, [])
      | some (rid, room) =>
        let room' : Room :=
          match room.playerSlots.get? playerOrdinal with
          | some slot =>
            { room with
              playerSlots := room.playerSlots.set playerOrdinal
                { slot with color := colorValue } }
          | Option.none => room
        ({ st with rooms := updateMap rid room' st.rooms },
         broadcastCommandPacket st.clients room' player_color_cmd remaining Option.none)
  else (st, [])

/-- The all-clients-ready scan of the player_ready branch: a room client
that is missing from the clients map, has no slot index, or points at a
missing slot is skipped; otherwise its slot must be ready. -/
def readyCheck (clientsMap : List (Nat × Client)) (room : Room) : Bool :=
  room.clients.all (fun cid =>
    match List.lookup cid clientsMap with
    | Option.none => true
    | some c =>
      match c.playerSlotIndex with
      | Option.none => true
      | some i =>
        match room.playerSlots.get? i with
        | Option.none => true
        | some s => s.ready)

def playerReadyBranch (st : ServerState) (senderId : Nat) :
    Except String (ServerState × List Msg) :=
  match List.lookup senderId st.clients with
  | Option.none => Except.ok (st, [])
  | some client =>
    let playerIndexBytes : Option (List Nat) :=
      match client.playerSlotIndex with
      | some i => if i < 8 then some [i] else Option.none
      | Option.none => Option.none
    match roomOfClient st client with
    | Option.none => Except.ok (st, [])
    | some (rid, room) =>
      let room1 : Room :=
        match client.playerSlotIndex with
        | some i =>
          match room.playerSlots.get? i with
          | some slot =>
            { room with
              playerSlots := room.playerSlots.set i { slot with ready := true } }
          | Option.none => room
        | Option.none => room
      match playerIndexBytes with
      | Option.none => Except.error "TypeError: spread of undefined player index"
      | some pIdx =>
        let msgs1 := broadcastCommandPacket st.clients room1 player_ready_cmd
          ([0x02] ++ pIdx) Option.none
        let allClientsReady := readyCheck st.clients room1
        if allClientsReady && room1.clients.length > 0 then
          match room1.playerSlots.get? 0 with
          | some aiSlot =>
            if !aiSlot.ready then
              let room2 : Room :=
                { room1 with
                  playerSlots := room1.playerSlots.set 0
                    { aiSlot with ready := true } }
              let msgs2 := broadcastCommandPacket st.clients room2 player_ready_cmd
                ([0x02] ++ [0x00]) Option.none
              Except.ok ({ st with rooms := updateMap rid room2 st.rooms }, msgs1 ++ msgs2)
            else Except.ok ({ st with rooms := updateMap rid room1 st.rooms }, msgs1)
          | Option.none => Except.ok ({ st with rooms := updateMap rid room1 st.rooms }, msgs1)
        else Except.ok ({ st with rooms := updateMap rid room1 st.rooms }, msgs1)

structure BattlePingState where
  counter : Nat
  initialPacketCounter : Nat
deriving DecidableEq, Repr

def jsOr (a b : Nat) : Nat := if a == 0 then b else a

def beginBattleBranch (socketCounter : Nat) (st : ServerState) (senderId : Nat) :
    ServerState × List Msg × BattlePingState :=
  let pingState : BattlePingState :=
    { counter := 0, initialPacketCounter := jsOr socketCounter 0 }
  match List.lookup senderId st.clients with
  | Option.none => (st, [], pingState)
  | some client =>
    let client' := { client with battleInitiated := true }
    let clients' := updateMap senderId client' st.clients
    match roomOfClient st client with
    | Option.none => ({ st with clients := clients' }, [], pingState)
    | some (rid, room) =>
      if checkAllClientsInitiatedBattle clients' room then
        let room' := startRoomBattle room
        let msgs := broadcastCommandPacket clients' room' game_speed_cmd
          [0x21, 0x00, 0x00, 0x00] Option.none
        ({ clients := clients', rooms := updateMap rid room' st.rooms }, msgs, pingState)
      else ({ st with clients := clients' }, [], pingState)

def writeUInt32LE (v : Nat) : Option (List Nat) :=
  if v < 2 ^ 32 then
    some [v % 256, v / 256 % 256, v / 65536 % 256, v / 16777216 % 256]
  else Option.none

def sendNextBattlePingBuf1 (s : BattlePingState) : Option (List Nat) :=
  match writeUInt32LE s.counter,
        writeUInt32LE (s.initialPacketCounter + s.counter) with
  | some a, some b => some (a ++ b)
  | _, _ => Option.none

def battlePingAdvance (s : BattlePingState) : BattlePingState :=
  { s with counter := s.counter + 1 }

/-! ## Concrete demonstration states

A fresh room 1 as created at server start, with one or two clients admitted
through addClientToRoom using fixed race and randomness choices. -/

def races0 : Nat → Race := fun _ => Race.humans

def initialClient (i : Nat) : Client :=
  { id := i, roomId := Option.none, playerSlotIndex := Option.none, battleInitiated := false }

def demoRoom0 : Room := (createRoom races0 []).1

def demoState0 : ServerState :=
  { clients := [(1, initialClient 1), (2, initialClient 2)],
    rooms := (createRoom races0 []).2 }

def demoState1 : ServerState := (addClientToRoom 0 0 1 demoState0 demoRoom0).2

def demoRoom1 : Room := (List.lookup 1 demoState1.rooms).getD demoRoom0

def demoState2 : ServerState := (addClientToRoom 0 0 2 demoState1 demoRoom1).2

def demoRoom2 : Room := (List.lookup 1 demoState2.rooms).getD demoRoom0

/-- C3: parsing is not exception-free: a player_name command whose ordinal
byte is 8 (one past the last slot), sent by a connected client in a room,
reaches the broadcast line of the player_name branch with an undefined slot
and throws a TypeError reading its name field, because the slot.name read
sits outside the if-slot guard.  The modelled branch returns the error. -/
theorem C3_player_name_ordinal8_throws :
    ∃ e, playerNameBranch demoState1 1 [0x08, 0x00, 0x41, 0x00] = Except.error e :=
  ⟨"TypeError: cannot read name of undefined slot", by rfl⟩

/-! ## Battle ping payload claims -/

theorem jsOr_zero (a : Nat) : jsOr a 0 = a := by
  rw [jsOr]
  split
  next h => simp at h; omega
  next h => rfl

/-- The battle ping state installed by the begin_battle branch, whatever the
dispatch outcome: counter 0 and the captured socket counter. -/
theorem beginBattle_pingState (socketCounter : Nat) (st : ServerState) (senderId : Nat) :
    (beginBattleBranch socketCounter st senderId).2.2 =
      { counter := 0, initialPacketCounter := socketCounter } := by
  rw [beginBattleBranch]
  simp only [jsOr_zero]
  split
  · rfl
  · split
    · rfl
    · split <;> rfl

theorem battlePingAdvance_iterate (s : BattlePingState) (n : Nat) :
    battlePingAdvance^[n] s =
      { counter := s.counter + n, initialPacketCounter := s.initialPacketCounter } := by
  induction n with
  | zero => simp
  | succ k ih =>
    rw [Function.iterate_succ_apply', ih, battlePingAdvance]
    rfl

/-- C9: after begin_battle is processed with the connection counter at a
given value, the n-th battle ping (zero-indexed, advancing once per echo or
timeout) carries an 8-byte payload of two little-endian 32-bit words: the
sequence number n, and the captured initial packet counter plus n. -/
theorem C9_battle_ping_payload (socketCounter : Nat) (st : ServerState) (senderId : Nat)
    (n : Nat) (h : socketCounter + n < 2 ^ 32) :
    (battlePingAdvance^[n] (beginBattleBranch socketCounter st senderId).2.2).counter = n ∧
    sendNextBattlePingBuf1 (battlePingAdvance^[n] (beginBattleBranch socketCounter st senderId).2.2)
      = some ([n % 256, n / 256 % 256, n / 65536 % 256, n / 16777216 % 256] ++
          [(socketCounter + n) % 256, (socketCounter + n) / 256 % 256,
           (socketCounter + n) / 65536 % 256, (socketCounter + n) / 16777216 % 256]) := by
  rw [beginBattle_pingState, battlePingAdvance_iterate]
  have h1 : n < 4294967296 := by omega
  have h2 : socketCounter + n < 4294967296 := by omega
  constructor
  · simp
  · simp [sendNextBattlePingBuf1, writeUInt32LE, h1, h2]

/-- Witness for C9 at socket counter 0x30 and two pings already echoed. -/
theorem C9_battle_ping_payload_witness :
    (battlePingAdvance^[2] (beginBattleBranch 0x30 demoState1 1).2.2).counter = 2 ∧
    sendNextBattlePingBuf1 (battlePingAdvance^[2] (beginBattleBranch 0x30 demoState1 1).2.2)
      = some ([2 % 256, 2 / 256 % 256, 2 / 65536 % 256, 2 / 16777216 % 256] ++
          [(0x30 + 2) % 256, (0x30 + 2) / 256 % 256,
           (0x30 + 2) / 65536 % 256, (0x30 + 2) / 16777216 % 256]) :=
  C9_battle_ping_payload 0x30 demoState1 1 2 (by norm_num)

/-! ## Begin-battle transition (C5) -/

theorem lookup_updateMap_self {α : Type} (k : Nat) (v : α) (m : List (Nat × α))
    (h : (List.lookup k m).isSome = true) : List.lookup k (updateMap k v m) = some v := by
  induction m with
  | nil => simp at h
  | cons p rest ih =>
    obtain ⟨pk, pv⟩ := p
    rw [updateMap]
    by_cases hk : pk = k
    · subst hk
      rw [if_pos (by simp)]
      simp
    · rw [if_neg (by simp [hk])]
      have h2 : (k == pk) = false := by simp [Ne.symm hk]
      rw [List.lookup_cons, h2]
      rw [List.lookup_cons, h2] at h
      exact ih h

theorem lookup_updateMap_other {α : Type} (k k2 : Nat) (v : α) (m : List (Nat × α))
    (h : k2 ≠ k) : List.lookup k2 (updateMap k v m) = List.lookup k2 m := by
  induction m with
  | nil => rfl
  | cons p rest ih =>
    obtain ⟨pk, pv⟩ := p
    rw [updateMap]
    by_cases hk : pk = k
    · subst hk
      rw [if_pos (by simp)]
      have h2 : (k2 == pk) = false := by simp [h]
      rw [List.lookup_cons, h2, List.lookup_cons, h2]
      exact ih
    · rw [if_neg (by simp [hk])]
      rw [List.lookup_cons, List.lookup_cons]
      cases h3 : (k2 == pk)
      · exact ih
      · rfl

theorem filterMap_eq_map_of_forall {α β : Type} (l : List α) (f : α → Option β) (g : α → β)
    (h : ∀ x ∈ l, f x = some (g x)) : l.filterMap f = l.map g := by
  induction l with
  | nil => rfl
  | cons a t ih =>
    rw [List.filterMap_cons, h a (by simp), List.map_cons]
    rw [ih (fun x hx => h x (by simp [hx]))]

/-- The all-initiated check holds exactly when the room is nonempty and every
room client resolves in the clients map with its battleInitiated flag set. -/
theorem checkAll_iff (cm : List (Nat × Client)) (room : Room) :
    checkAllClientsInitiatedBattle cm room = true ↔
      (room.clients ≠ [] ∧ ∀ cid ∈ room.clients,
        ∃ c, List.lookup cid cm = some c ∧ c.battleInitiated = true) := by
  rw [checkAllClientsInitiatedBattle]
  split
  next h =>
    have hnil : room.clients = [] := by
      simpa using List.eq_nil_of_length_eq_zero (by simpa using h)
    simp [hnil]
  next h =>
    have hne : room.clients ≠ [] := by
      intro hnil
      simp [hnil] at h
    rw [List.all_eq_true]
    constructor
    · intro hall
      refine ⟨hne, fun cid hc => ?_⟩
      have hcid := hall cid hc
      revert hcid
      cases hl : List.lookup cid cm with
      | none => simp
      | some c =>
        intro hb
        exact ⟨c, rfl, by simpa using hb⟩
    · rintro ⟨-, hall⟩ cid hc
      obtain ⟨c, hl, hb⟩ := hall cid hc
      rw [hl]
      simpa using hb

/-- Broadcast with no exclusion reaches every room client when each of them
is present in the clients map. -/
theorem broadcast_all (cm : List (Nat × Client)) (room : Room) (cmd data : List Nat)
    (h : ∀ cid ∈ room.clients, (List.lookup cid cm).isSome = true) :
    broadcastCommandPacket cm room cmd data Option.none =
      room.clients.map (fun cid => { recipient := cid, command := cmd, data := data }) := by
  rw [broadcastCommandPacket]
  apply filterMap_eq_map_of_forall
  intro cid hc
  have hs := h cid hc
  cases hl : List.lookup cid cm with
  | none => rw [hl] at hs; simp at hs
  | some c => simp [hl]

/-- C5: dispatching begin_battle for a connected sender whose room is not yet
in battle flips inBattle to true exactly when the room has at least one
client and, after marking the sender, every room client has battleInitiated
set; at that transition a game_speed command with data 0x21 0x00 0x00 0x00
is broadcast to every client of the room. -/
theorem C5_begin_battle_transition (socketCounter : Nat) (st : ServerState)
    (senderId rid : Nat) (client : Client) (room : Room)
    (hc : List.lookup senderId st.clients = some client)
    (hrid : client.roomId = some rid)
    (hroom : List.lookup rid st.rooms = some room)
    (hnot : room.inBattle = false) :
    (((List.lookup rid (beginBattleBranch socketCounter st senderId).1.rooms).getD room).inBattle
        = true
      ↔ (room.clients ≠ [] ∧ ∀ cid ∈ room.clients,
          ∃ c, List.lookup cid
              (updateMap senderId { client with battleInitiated := true } st.clients) = some c
            ∧ c.battleInitiated = true)) ∧
    (((List.lookup rid (beginBattleBranch socketCounter st senderId).1.rooms).getD room).inBattle
        = true →
      (beginBattleBranch socketCounter st senderId).2.1 =
        room.clients.map (fun cid =>
          { recipient := cid, command := game_speed_cmd, data := [0x21, 0x00, 0x00, 0x00] })) := by
  have hrc : roomOfClient st client = some (rid, room) := by
    simp only [roomOfClient, hrid, hroom]
  rw [beginBattleBranch]
  simp only [hc, hrc]
  by_cases hchk : checkAllClientsInitiatedBattle
      (updateMap senderId { client with battleInitiated := true } st.clients) room = true
  · rw [if_pos hchk]
    simp only []
    rw [lookup_updateMap_self _ _ _ (by rw [hroom]; rfl)]
    have hrhs := (checkAll_iff _ _).mp hchk
    constructor
    · simpa [startRoomBattle] using hrhs
    · intro _
      rw [startRoomBattle]
      apply broadcast_all
      intro cid hcid
      obtain ⟨c, hl, -⟩ := hrhs.2 cid hcid
      rw [hl]
      rfl
  · rw [if_neg hchk]
    simp only [hroom, Option.getD_some]
    constructor
    · rw [hnot]
      constructor
      · intro hfalse
        exact absurd hfalse (by simp)
      · intro hrhs
        exact absurd ((checkAll_iff _ _).mpr hrhs) hchk
    · rw [hnot]
      intro hfalse
      exact absurd hfalse (by simp)

def demoClient1 : Client :=
  { initialClient 1 with roomId := some 1, playerSlotIndex := some 1 }

def demoClient1b : Client := { demoClient1 with battleInitiated := true }

/-- Witness for C5: a single-client room; the sole client sends begin_battle
and the room transitions with a game-speed broadcast to that client. -/
theorem C5_begin_battle_transition_witness :
    (((List.lookup 1 (beginBattleBranch 0 demoState1 1).1.rooms).getD demoRoom1).inBattle = true
      ↔ (demoRoom1.clients ≠ [] ∧ ∀ cid ∈ demoRoom1.clients,
          ∃ c, List.lookup cid (updateMap 1 demoClient1b demoState1.clients) = some c
            ∧ c.battleInitiated = true)) ∧
    (((List.lookup 1 (beginBattleBranch 0 demoState1 1).1.rooms).getD demoRoom1).inBattle = true →
      (beginBattleBranch 0 demoState1 1).2.1 =
        demoRoom1.clients.map (fun cid =>
          { recipient := cid, command := game_speed_cmd, data := [0x21, 0x00, 0x00, 0x00] })) :=
  C5_begin_battle_transition 0 demoState1 1 1 demoClient1 demoRoom1
    (by rfl) (by rfl) (by rfl) (by rfl)

/-! ## Player-ready dispatch (C8) -/

/-- C8 counterexample state: the single client of room 1 has already sent
player_ready once, which marked its slot 1 and cascaded slot 0 to ready. -/
def demoStateReady : ServerState :=
  match playerReadyBranch demoState1 1 with
  | Except.ok p => p.1
  | Except.error _ => demoState1

/-- C8 counterexample: in demoStateReady every slot occupied by a connected
client is ready (the ready scan succeeds) and the room is nonempty, yet a
further player_ready dispatch broadcasts only the sender echo: slot 0 is
already ready, so no player_ready 0x02 with slot 0 is sent, contradicting
the claim that the slot-0 broadcast accompanies every all-ready update. -/
theorem C8_counterexample_no_second_ai_broadcast :
    (∃ roomR, List.lookup 1 demoStateReady.rooms = some roomR ∧
      readyCheck demoStateReady.clients roomR = true ∧
      roomR.clients ≠ []) ∧
    (∃ stOut msgs, playerReadyBranch demoStateReady 1 = Except.ok (stOut, msgs) ∧
      msgs = [{ recipient := 1, command := player_ready_cmd, data := [0x02, 0x01] }] ∧
      ∀ m ∈ msgs, m.data ≠ [0x02, 0x00]) := by
  constructor
  · exact ⟨_, rfl, by decide, by decide⟩
  · exact ⟨_, _, rfl, by decide, by decide⟩

/-- C8 amended: on player_ready from a connected client in slot i of its
room, the slot is marked ready and the 0x02-with-slot-index echo is
broadcast to every client of the room including the sender; the slot-0
cascade (mark ready and broadcast 0x02 with slot 0) happens exactly when
the ready scan over occupied slots succeeds, the room is nonempty, and
slot 0 is not already ready. -/
theorem C8_player_ready_dispatch (st : ServerState) (senderId rid i : Nat)
    (client : Client) (room : Room) (slot aiSlot : Slot)
    (hc : List.lookup senderId st.clients = some client)
    (hrid : client.roomId = some rid)
    (hroom : List.lookup rid st.rooms = some room)
    (hidx : client.playerSlotIndex = some i)
    (hi : i < 8) (hi0 : 0 < i)
    (hslot : room.playerSlots.get? i = some slot)
    (hai : room.playerSlots.get? 0 = some aiSlot)
    (hmem : ∀ cid ∈ room.clients, (List.lookup cid st.clients).isSome = true) :
    ∃ stOut msgs, playerReadyBranch st senderId = Except.ok (stOut, msgs) ∧
      ∃ roomAfter, List.lookup rid stOut.rooms = some roomAfter ∧
        roomAfter.playerSlots.get? i = some { slot with ready := true } ∧
        (if readyCheck st.clients
              { room with playerSlots := room.playerSlots.set i { slot with ready := true } }
                = true
            ∧ room.clients ≠ [] ∧ aiSlot.ready = false then
          roomAfter.playerSlots.get? 0 = some { aiSlot with ready := true } ∧
          msgs = room.clients.map (fun cid =>
              { recipient := cid, command := player_ready_cmd, data := [0x02, i] }) ++
            room.clients.map (fun cid =>
              { recipient := cid, command := player_ready_cmd, data := [0x02, 0x00] })
        else
          roomAfter.playerSlots.get? 0 = some aiSlot ∧
          msgs = room.clients.map (fun cid =>
            { recipient := cid, command := player_ready_cmd, data := [0x02, i] })) := by
  have hilen : i < room.playerSlots.length := by
    by_contra hgt
    rw [List.get?_eq_getElem?, List.getElem?_eq_none (by omega)] at hslot
    exact Option.noConfusion hslot
  have h0len : 0 < room.playerSlots.length := by omega
  have hrc : roomOfClient st client = some (rid, room) := by
    simp only [roomOfClient, hrid, hroom]
  rw [playerReadyBranch]
  simp only [hc, hrc, hidx, hslot]
  rw [if_pos hi]
  simp only []
  set room1 : Room :=
    { room with playerSlots := room.playerSlots.set i { slot with ready := true } } with hroom1
  have hr1get0 : room1.playerSlots.get? 0 = some aiSlot := by
    rw [hroom1]
    simp only [List.get?_eq_getElem?]
    rw [List.getElem?_set_ne (by omega)]
    rw [← List.get?_eq_getElem?]
    exact hai
  have hr1geti : room1.playerSlots.get? i = some { slot with ready := true } := by
    rw [hroom1]
    simp only [List.get?_eq_getElem?]
    rw [List.getElem?_set_self hilen]
  have hecho : broadcastCommandPacket st.clients room1 player_ready_cmd ([0x02] ++ [i])
      Option.none = room.clients.map (fun cid =>
        { recipient := cid, command := player_ready_cmd, data := [0x02, i] }) := by
    exact broadcast_all st.clients room1 player_ready_cmd ([0x02] ++ [i]) hmem
  by_cases hchk : (readyCheck st.clients room1 && decide (room1.clients.length > 0)) = true
  · rw [if_pos hchk]
    rw [hr1get0]
    simp only []
    by_cases haiready : aiSlot.ready = true
    · have hneg : (!aiSlot.ready) = false := by rw [haiready]; rfl
      rw [hneg]
      rw [if_neg (by simp)]
      refine ⟨_, _, rfl, ?_⟩
      refine ⟨room1, lookup_updateMap_self _ _ _ (by rw [hroom]; rfl), hr1geti, ?_⟩
      rw [if_neg (by rintro ⟨-, -, hfalse⟩; rw [haiready] at hfalse; exact Bool.noConfusion hfalse)]
      exact ⟨hr1get0, hecho⟩
    · have hready : aiSlot.ready = false := by
        cases hx : aiSlot.ready
        · rfl
        · exact absurd hx haiready
      have hpos : (!aiSlot.ready) = true := by rw [hready]; rfl
      rw [hpos]
      rw [if_pos rfl]
      set room2 : Room :=
        { room1 with playerSlots := room1.playerSlots.set 0 { aiSlot with ready := true } }
        with hroom2
      have hlen2 : room2.clients = room.clients := by rw [hroom2, hroom1]
      have hai2 : broadcastCommandPacket st.clients room2 player_ready_cmd
          ([0x02] ++ [0x00]) Option.none = room.clients.map (fun cid =>
            { recipient := cid, command := player_ready_cmd, data := [0x02, 0x00] }) := by
        have hb := broadcast_all st.clients room2 player_ready_cmd ([0x02] ++ [0x00])
          (by rw [hlen2]; exact hmem)
        rw [hb, hlen2]
        rfl
      refine ⟨_, _, rfl, ?_⟩
      refine ⟨room2, lookup_updateMap_self _ _ _ (by rw [hroom]; rfl), ?_, ?_⟩
      · rw [hroom2]
        simp only [List.get?_eq_getElem?]
        rw [List.getElem?_set_ne (by omega)]
        rw [← List.get?_eq_getElem?]
        exact hr1geti
      · rw [if_pos ?hcond]
        case hcond =>
          simp only [Bool.and_eq_true, decide_eq_true_eq] at hchk
          exact ⟨hchk.1, List.ne_nil_of_length_pos hchk.2, hready⟩
        constructor
        · rw [hroom2]
          simp only [List.get?_eq_getElem?]
          rw [List.getElem?_set_self (by simpa using h0len)]
        · rw [hecho, hai2]
  · rw [if_neg hchk]
    refine ⟨_, _, rfl, ?_⟩
    refine ⟨room1, lookup_updateMap_self _ _ _ (by rw [hroom]; rfl), hr1geti, ?_⟩
    rw [if_neg ?hnc]
    case hnc =>
      rintro ⟨h1, h2, -⟩
      apply hchk
      simp only [Bool.and_eq_true, decide_eq_true_eq]
      exact ⟨h1, List.length_pos_of_ne_nil h2⟩
    exact ⟨hr1get0, hecho⟩

def demoSlotAtOne : Slot := demoRoom1.playerSlots.get ⟨1, by decide⟩

def demoSlotAtZero : Slot := demoRoom1.playerSlots.get ⟨0, by decide⟩

def demoSlotAtOneReady : Slot := { demoSlotAtOne with ready := true }

def demoSlotAtZeroReady : Slot := { demoSlotAtZero with ready := true }

def demoRoom1Marked : Room :=
  { demoRoom1 with playerSlots := demoRoom1.playerSlots.set 1 demoSlotAtOneReady }

/-- Witness for C8 amended at the one-client demonstration room: both slot 1
and slot 0 become ready and both broadcasts are emitted. -/
theorem C8_player_ready_dispatch_witness :
    ∃ stOut msgs, playerReadyBranch demoState1 1 = Except.ok (stOut, msgs) ∧
      ∃ roomAfter, List.lookup 1 stOut.rooms = some roomAfter ∧
        roomAfter.playerSlots.get? 1 = some demoSlotAtOneReady ∧
        (if readyCheck demoState1.clients demoRoom1Marked = true
            ∧ demoRoom1.clients ≠ [] ∧ demoSlotAtZero.ready = false then
          roomAfter.playerSlots.get? 0 = some demoSlotAtZeroReady ∧
          msgs = demoRoom1.clients.map (fun cid =>
              { recipient := cid, command := player_ready_cmd, data := [0x02, 1] }) ++
            demoRoom1.clients.map (fun cid =>
              { recipient := cid, command := player_ready_cmd, data := [0x02, 0x00] })
        else
          roomAfter.playerSlots.get? 0 = some demoSlotAtZero ∧
          msgs = demoRoom1.clients.map (fun cid =>
            { recipient := cid, command := player_ready_cmd, data := [0x02, 1] })) :=
  C8_player_ready_dispatch demoState1 1 1 1 demoClient1 demoRoom1
    demoSlotAtOne demoSlotAtZero
    (by rfl) (by rfl) (by rfl) (by rfl) (by decide) (by decide)
    (by decide) (by decide) (by decide)

/-! ## Room selection (C7) -/

theorem findFreeRoomIdAux_spec (keys : List Nat) :
    ∀ f r, (∃ j, j ≤ f ∧ keys.contains (r + j) = false) →
      keys.contains (findFreeRoomIdAux keys f r) = false ∧
      r ≤ findFreeRoomIdAux keys f r ∧
      ∀ m, r ≤ m → m < findFreeRoomIdAux keys f r → keys.contains m = true := by
  intro f
  induction f with
  | zero =>
    rintro r ⟨j, hj, hfree⟩
    have hj0 : j = 0 := by omega
    subst hj0
    rw [findFreeRoomIdAux]
    exact ⟨hfree, Nat.le_refl r, fun m h1 h2 => absurd (Nat.lt_of_le_of_lt h1 h2) (by omega)⟩
  | succ f ih =>
    rintro r ⟨j, hj, hfree⟩
    rw [findFreeRoomIdAux]
    cases hcr : keys.contains r with
    | false =>
      rw [if_neg (by simp [hcr])]
      exact ⟨hcr, Nat.le_refl r, fun m h1 h2 => absurd (Nat.lt_of_le_of_lt h1 h2) (by omega)⟩
    | true =>
      rw [if_pos (by simp [hcr])]
      have hjpos : 1 ≤ j := by
        by_contra hj1
        have : j = 0 := by omega
        subst this
        rw [Nat.add_zero] at hfree
        rw [hcr] at hfree
        exact Bool.noConfusion hfree
      have hnext : ∃ j2, j2 ≤ f ∧ keys.contains (r + 1 + j2) = false := by
        refine ⟨j - 1, by omega, ?_⟩
        rw [show r + 1 + (j - 1) = r + j from by omega]
        exact hfree
      obtain ⟨ha, hb, hc⟩ := ih (r + 1) hnext
      refine ⟨ha, by omega, fun m h1 h2 => ?_⟩
      by_cases hm : m = r
      · subst hm
        exact hcr
      · exact hc m (by omega) h2

theorem le_foldr_max (keys : List Nat) : ∀ x ∈ keys, x ≤ keys.foldr max 0 := by
  induction keys with
  | nil => simp
  | cons a t ih =>
    intro x hx
    rw [List.foldr_cons]
    rcases List.mem_cons.mp hx with hx | hx
    · subst hx
      exact Nat.le_max_left _ _
    · exact Nat.le_trans (ih x hx) (Nat.le_max_right _ _)

theorem lowestFreeId_spec (keys : List Nat) :
    keys.contains (lowestFreeId keys) = false ∧ 1 ≤ lowestFreeId keys ∧
      ∀ m, 1 ≤ m → m < lowestFreeId keys → keys.contains m = true := by
  apply findFreeRoomIdAux_spec
  refine ⟨keys.foldr max 0, by omega, ?_⟩
  cases h : keys.contains (1 + keys.foldr max 0) with
  | false => rfl
  | true =>
    have hm : (1 + keys.foldr max 0) ∈ keys := List.elem_iff.mp h
    have := le_foldr_max keys _ hm
    omega

/-- The joinability predicate of the claim: not in battle, and some slot with
index between 1 and 7 has no bound client and the empty type. -/
def availClaim (room : Room) : Prop :=
  room.inBattle = false ∧ ∃ i s, 1 ≤ i ∧ i ≤ 7 ∧ room.playerSlots.get? i = some s ∧
    s.clientId = Option.none ∧ s.type = PlayerType.none

/-- The free-slot filter of getAvailableRoom agrees with the claim predicate
on rooms whose slot array has length 8 and whose slot 0 is never of the
empty type. -/
theorem avail_filter_iff (room : Room) (hlen : room.playerSlots.length = 8)
    (h0 : ∀ s, room.playerSlots.get? 0 = some s → s.type ≠ PlayerType.none) :
    ((!room.inBattle && (room.playerSlots.filter isFreeSlot).length > 0) = true)
      ↔ availClaim room := by
  rw [Bool.and_eq_true, Bool.not_eq_eq_eq_not, Bool.not_true, decide_eq_true_eq]
  constructor
  · rintro ⟨hib, hpos⟩
    refine ⟨hib, ?_⟩
    have hne : room.playerSlots.filter isFreeSlot ≠ [] := by
      intro hnil
      rw [hnil] at hpos
      simp at hpos
    obtain ⟨s, hs⟩ := List.exists_mem_of_ne_nil _ hne
    have hmem := List.mem_filter.mp hs
    obtain ⟨n, hn, hget⟩ := List.getElem_of_mem hmem.1
    have hfree := hmem.2
    rw [isFreeSlot, Bool.and_eq_true, beq_iff_eq, beq_iff_eq] at hfree
    have hn0 : n ≠ 0 := by
      intro h
      subst h
      apply h0 s _ hfree.2
      rw [List.get?_eq_getElem?, List.getElem?_eq_getElem hn, hget]
    refine ⟨n, s, by omega, by omega, ?_, hfree.1, hfree.2⟩
    rw [List.get?_eq_getElem?, List.getElem?_eq_getElem hn, hget]
  · rintro ⟨hib, i, s, h1i, hi7, hget, hcid, hty⟩
    refine ⟨hib, ?_⟩
    have hmem : s ∈ room.playerSlots := List.get?_mem hget
    have hsf : s ∈ room.playerSlots.filter isFreeSlot := by
      rw [List.mem_filter]
      refine ⟨hmem, ?_⟩
      rw [isFreeSlot, Bool.and_eq_true, beq_iff_eq, beq_iff_eq]
      exact ⟨hcid, hty⟩
    have := List.length_pos_of_mem hsf
    omega

/-- The head of the id-sorted available list is an available room of minimum
id. -/
theorem head_mergeSort_min (l : List Room) (r : Room)
    (h : (l.mergeSort (fun a b => a.id ≤ b.id)).head? = some r) :
    r ∈ l ∧ ∀ x ∈ l, r.id ≤ x.id := by
  have hsorted := @List.sorted_mergeSort Room (fun a b : Room => (a.id ≤ b.id : Bool))
    (fun a b c hab hbc => by
      simp only [decide_eq_true_eq] at hab hbc ⊢
      omega)
    (fun a b => by
      simp only [Bool.or_eq_true, decide_eq_true_eq]
      omega) l
  obtain ⟨tl, htl⟩ := List.head?_eq_some_iff.mp h
  have hmem : r ∈ l := by
    rw [← @List.mem_mergeSort Room (fun a b : Room => (a.id ≤ b.id : Bool)) r l]
    rw [htl]
    simp
  refine ⟨hmem, fun x hx => ?_⟩
  rw [← @List.mem_mergeSort Room (fun a b : Room => (a.id ≤ b.id : Bool)) x l] at hx
  rw [htl] at hx hsorted
  rcases List.mem_cons.mp hx with hx | hx
  · subst hx
    exact Nat.le_refl _
  · have := (List.pairwise_cons.mp hsorted).1 x hx
    simpa using this

/-- C7: getAvailableRoom returns the existing room of minimum id among those
not in battle with a free slot in indices 1..7 (type none, no client); when
no such room exists it creates one whose id is the lowest unused integer,
which is at least 2 because room 1 exists. -/
theorem C7_getAvailableRoom (races : Nat → Race) (rooms : List (Nat × Room))
    (h1 : (rooms.map (fun p => p.1)).contains 1 = true)
    (hlen : ∀ p ∈ rooms, (p.2).playerSlots.length = 8)
    (h0 : ∀ p ∈ rooms, ∀ s, (p.2).playerSlots.get? 0 = some s →
      s.type ≠ PlayerType.none) :
    ((∃ q ∈ rooms, availClaim q.2) →
      ∃ q ∈ rooms, (getAvailableRoom races rooms).1 = q.2 ∧ availClaim q.2 ∧
        ∀ q2 ∈ rooms, availClaim q2.2 → q.2.id ≤ q2.2.id) ∧
    ((∀ q ∈ rooms, ¬ availClaim q.2) →
      (rooms.map (fun p => p.1)).contains (getAvailableRoom races rooms).1.id = false ∧
      2 ≤ (getAvailableRoom races rooms).1.id ∧
      ∀ m, 2 ≤ m → m < (getAvailableRoom races rooms).1.id →
        (rooms.map (fun p => p.1)).contains m = true) := by
  rw [getAvailableRoom]
  cases hh : ((rooms.map (fun p => p.2)).filter (fun room =>
      !room.inBattle && (room.playerSlots.filter isFreeSlot).length > 0)).mergeSort
        (fun a b => a.id ≤ b.id) |>.head? with
  | some r =>
    obtain ⟨hrmem, hrmin⟩ := head_mergeSort_min _ r hh
    have hrfil := List.mem_filter.mp hrmem
    obtain ⟨q, hq, hqr⟩ := List.mem_map.mp hrfil.1
    have hravail : availClaim r := by
      rw [← avail_filter_iff r (by rw [← hqr]; exact hlen q hq)
        (by rw [← hqr]; exact h0 q hq)]
      exact hrfil.2
    constructor
    · intro hex
      refine ⟨q, hq, by rw [hqr], by rw [hqr]; exact hravail, fun q2 hq2 hav2 => ?_⟩
      have hq2mem : q2.2 ∈ (rooms.map (fun p => p.2)).filter (fun room =>
          !room.inBattle && (room.playerSlots.filter isFreeSlot).length > 0) := by
        rw [List.mem_filter]
        refine ⟨List.mem_map.mpr ⟨q2, hq2, rfl⟩, ?_⟩
        rw [avail_filter_iff q2.2 (hlen q2 hq2) (h0 q2 hq2)]
        exact hav2
      rw [hqr]
      exact hrmin q2.2 hq2mem
    · intro hnone
      exact absurd hravail (by
        rw [← hqr] at *
        exact hnone q hq)
  | none =>
    have hempty : (rooms.map (fun p => p.2)).filter (fun room =>
        !room.inBattle && (room.playerSlots.filter isFreeSlot).length > 0) = [] := by
      have hms := List.head?_eq_none_iff.mp hh
      have hperm := List.mergeSort_perm ((rooms.map (fun p => p.2)).filter (fun room =>
        !room.inBattle && (room.playerSlots.filter isFreeSlot).length > 0))
        (fun a b => a.id ≤ b.id)
      rw [hms] at hperm
      exact (List.Perm.nil_eq hperm).symm
    constructor
    · rintro ⟨q, hq, hav⟩
      exfalso
      have hmem : q.2 ∈ (rooms.map (fun p => p.2)).filter (fun room =>
          !room.inBattle && (room.playerSlots.filter isFreeSlot).length > 0) := by
        rw [List.mem_filter]
        refine ⟨List.mem_map.mpr ⟨q, hq, rfl⟩, ?_⟩
        rw [avail_filter_iff q.2 (hlen q hq) (h0 q hq)]
        exact hav
      rw [hempty] at hmem
      exact List.not_mem_nil _ hmem
    · intro hnone
      rw [createRoom]
      simp only []
      obtain ⟨ha, hb, hc⟩ := lowestFreeId_spec (rooms.map (fun p => p.1))
      have hne1 : lowestFreeId (rooms.map (fun p => p.1)) ≠ 1 := by
        intro heq
        rw [heq] at ha
        rw [h1] at ha
        exact Bool.noConfusion ha
      refine ⟨ha, by omega, fun m hm2 hmlt => hc m (by omega) hmlt⟩

/-- Witness for C7 at a one-room state with free slots: the existing room 1
is returned. -/
theorem C7_getAvailableRoom_witness :
    ((∃ q ∈ demoState1.rooms, availClaim q.2) →
      ∃ q ∈ demoState1.rooms, (getAvailableRoom races0 demoState1.rooms).1 = q.2 ∧
        availClaim q.2 ∧
        ∀ q2 ∈ demoState1.rooms, availClaim q2.2 → q.2.id ≤ q2.2.id) ∧
    ((∀ q ∈ demoState1.rooms, ¬ availClaim q.2) →
      (demoState1.rooms.map (fun p => p.1)).contains
        (getAvailableRoom races0 demoState1.rooms).1.id = false ∧
      2 ≤ (getAvailableRoom races0 demoState1.rooms).1.id ∧
      ∀ m, 2 ≤ m → m < (getAvailableRoom races0 demoState1.rooms).1.id →
        (demoState1.rooms.map (fun p => p.1)).contains m = true) :=
  C7_getAvailableRoom races0 demoState1.rooms (by decide)
    (by decide)
    (by decide)

/-! ## Color uniqueness (C6) -/

/-- Color uniqueness of a room: no two active slots (gamer or AI types)
carry the same color. -/
def ColorUnique (room : Room) : Prop := (usedColors room).Nodup

/-- Structural well-formedness maintained by the room code: eight slots with
pairwise distinct index fields. -/
def WfRoom (room : Room) : Prop :=
  room.playerSlots.length = 8 ∧ (room.playerSlots.map (fun s => s.index)).Nodup

/-- C6 counterexample: a room with two admitted clients has distinct colors,
but a single player_color command assigning client 2 the color of client 1
produces two active slots with equal color: the dispatch performs no
uniqueness check, refuting preservation of the invariant by every dispatched
command. -/
theorem C6_counterexample_player_color_duplicates :
    ColorUnique demoRoom2 ∧
    ¬ ColorUnique ((List.lookup 1 (playerColorBranch demoState2 1 [1, 2]).1.rooms).getD
      demoRoom0) := by
  constructor
  · show (usedColors demoRoom2).Nodup
    decide
  · show ¬ (usedColors ((List.lookup 1 (playerColorBranch demoState2 1 [1, 2]).1.rooms).getD
      demoRoom0)).Nodup
    decide

theorem isActiveSlot_of_type_none (s : Slot) (h : s.type = PlayerType.none) :
    isActiveSlot s = false := by
  rw [isActiveSlot, h]
  rfl

theorem isFreeSlot_fields (s : Slot) (h : isFreeSlot s = true) :
    s.clientId = Option.none ∧ s.type = PlayerType.none := by
  rw [isFreeSlot, Bool.and_eq_true, beq_iff_eq, beq_iff_eq] at h
  exact h

theorem length_filter_lt (p : Slot → Bool) (l : List Slot) (s : Slot)
    (hs : s ∈ l) (hps : p s = false) : (l.filter p).length < l.length := by
  induction l with
  | nil => cases hs
  | cons a t ih =>
    rw [List.filter_cons]
    by_cases hpa : p a = true
    · rw [if_pos hpa]
      have hst : s ∈ t := by
        rcases List.mem_cons.mp hs with h | h
        · subst h
          rw [hps] at hpa
          exact Bool.noConfusion hpa
        · exact h
      have := ih hst
      simpa using Nat.succ_lt_succ this
    · rw [if_neg hpa]
      rcases List.mem_cons.mp hs with h | h
      · have := List.length_filter_le p t
        simp only [List.length_cons]
        omega
      · have := ih h
        simp only [List.length_cons]
        omega

/-- When a free slot exists, getAvailableColor returns a color that no
active slot uses: the first unused color in 0..7 exists because at most
seven slots are active. -/
theorem getAvailableColor_not_used (rndColor : Nat) (room : Room) (s : Slot)
    (hlen : room.playerSlots.length = 8)
    (hs : s ∈ room.playerSlots) (hsf : isFreeSlot s = true) :
    getAvailableColor rndColor room ∉ usedColors room := by
  have hinact : isActiveSlot s = false :=
    isActiveSlot_of_type_none s (isFreeSlot_fields s hsf).2
  have hused_len : (usedColors room).length < 8 := by
    rw [usedColors, List.length_map]
    have := length_filter_lt isActiveSlot room.playerSlots s hs hinact
    omega
  rw [getAvailableColor]
  cases hfind : (List.range 8).find? (fun color => !((usedColors room).contains color)) with
  | none =>
    exfalso
    have hsub : List.range 8 ⊆ usedColors room := by
      intro c hc
      have hnc := List.find?_eq_none.mp hfind c hc
      cases hcc : (usedColors room).contains c with
      | false =>
        rw [hcc] at hnc
        simp at hnc
      | true => exact List.elem_iff.mp hcc
    have hsp := (List.nodup_range 8).subperm hsub
    have hle := hsp.length_le
    rw [List.length_range] at hle
    omega
  | some c =>
    have hp := List.find?_some hfind
    intro hmemc
    have hct : (usedColors room).contains c = true := List.elem_iff.mpr hmemc
    rw [hct] at hp
    exact Bool.noConfusion hp

theorem mem_colors_set (t : List Slot) (n : Nat) (v : Slot) (x : Nat)
    (hx : x ∈ ((t.set n v).filter isActiveSlot).map (fun s => s.color)) :
    x ∈ (t.filter isActiveSlot).map (fun s => s.color) ∨ x = v.color := by
  obtain ⟨s, hsmem, hscol⟩ := List.mem_map.mp hx
  have hsf := List.mem_filter.mp hsmem
  rcases List.mem_or_eq_of_mem_set hsf.1 with hm | he
  · exact Or.inl (List.mem_map.mpr ⟨s, List.mem_filter.mpr ⟨hm, hsf.2⟩, hscol⟩)
  · subst he
    exact Or.inr hscol.symm

/-- Replacing an inactive slot by an active one whose color is fresh keeps
the active-color list duplicate-free. -/
theorem nodup_colors_set (l : List Slot) (k : Nat) (old new : Slot)
    (hk : l.get? k = some old)
    (holdina : isActiveSlot old = false) (hnewact : isActiveSlot new = true)
    (hnodup : ((l.filter isActiveSlot).map (fun s => s.color)).Nodup)
    (hnew : new.color ∉ (l.filter isActiveSlot).map (fun s => s.color)) :
    (((l.set k new).filter isActiveSlot).map (fun s => s.color)).Nodup := by
  induction l generalizing k with
  | nil => simp at hk
  | cons a t ih =>
    cases k with
    | zero =>
      have ha : a = old := by
        rw [List.get?_eq_getElem?] at hk
        simpa using hk
      subst ha
      rw [List.set_cons_zero]
      rw [List.filter_cons, if_neg (by simp [holdina])] at hnodup hnew
      rw [List.filter_cons, if_pos (by simp [hnewact]), List.map_cons]
      exact List.nodup_cons.mpr ⟨hnew, hnodup⟩
    | succ n =>
      have hkt : t.get? n = some old := by
        rw [List.get?_eq_getElem?] at hk ⊢
        simpa using hk
      rw [List.set_cons_succ]
      rw [List.filter_cons] at hnodup hnew
      rw [List.filter_cons]
      by_cases hpa : isActiveSlot a = true
      · rw [if_pos (by simp [hpa])] at hnodup hnew ⊢
        rw [List.map_cons] at hnodup hnew ⊢
        have hd := List.nodup_cons.mp hnodup
        have hnew2 : new.color ∉ (t.filter isActiveSlot).map (fun s => s.color) := by
          intro hm
          exact hnew (List.mem_cons.mpr (Or.inr hm))
        refine List.nodup_cons.mpr ⟨?_, ih n hkt hd.2 hnew2⟩
        intro hmem
        rcases mem_colors_set t n new a.color hmem with hm | he
        · exact hd.1 hm
        · exact hnew (List.mem_cons.mpr (Or.inl he.symm))
      · rw [if_neg hpa] at hnodup hnew ⊢
        exact ih n hkt hnodup hnew

theorem set_self_getElem? {α : Type} (l : List α) (n : Nat) (x : α)
    (h : l[n]? = some x) : l.set n x = l := by
  obtain ⟨hlt, hl⟩ := List.getElem?_eq_some.mp h
  apply List.ext_getElem?
  intro j
  by_cases hj : j = n
  · subst hj
    rw [List.getElem?_set_self (by simpa using hlt)]
    exact h.symm
  · rw [List.getElem?_set_ne (fun he => hj he.symm)]

/-- The index-keyed update of assignSlotToClient coincides with a positional
set at the slot position, thanks to distinct index fields. -/
theorem assign_map_eq_set (clientId slotIndex availableColor : Nat) (l : List Slot)
    (k : Nat) (slot : Slot) (hget : l.get? k = some slot)
    (hidx : (l.map (fun s => s.index)).Nodup)
    (hslotidx : slot.index = slotIndex) :
    (l.map (fun s =>
      if s.index == slotIndex then
        { s with
          clientId := some clientId, type := PlayerType.gamer, ready := false,
          color := availableColor }
      else s)) =
    l.set k { slot with
      clientId := some clientId, type := PlayerType.gamer, ready := false,
      color := availableColor } := by
  rw [List.get?_eq_getElem?] at hget
  obtain ⟨hk, hl⟩ := List.getElem?_eq_some.mp hget
  apply List.ext_getElem?
  intro j
  by_cases hjlen : j < l.length
  · by_cases hj : j = k
    · subst hj
      rw [List.getElem?_map]
      rw [List.getElem?_set_self (by simpa using hjlen)]
      rw [List.getElem?_eq_getElem hjlen]
      rw [Option.map_some']
      rw [hl]
      rw [if_pos (by simp [hslotidx])]
    · rw [List.getElem?_map]
      rw [List.getElem?_set_ne (fun he => hj he.symm)]
      rw [List.getElem?_eq_getElem hjlen]
      rw [Option.map_some']
      have hne : l[j].index ≠ slotIndex := by
        intro he
        apply hj
        have hjm : j < (l.map (fun s => s.index)).length := by simpa using hjlen
        have hkm : k < (l.map (fun s => s.index)).length := by simpa using hk
        have h1 : (l.map (fun s => s.index)).get ⟨j, hjm⟩
            = (l.map (fun s => s.index)).get ⟨k, hkm⟩ := by
          rw [List.get_eq_getElem, List.get_eq_getElem]
          rw [List.getElem_map, List.getElem_map]
          rw [he, hl, hslotidx]
        have h2 := (hidx.get_inj_iff).mp h1
        simpa using h2
      rw [if_neg (by simp [hne])]
  · rw [List.getElem?_map]
    rw [List.getElem?_eq_none (by omega)]
    rw [List.getElem?_eq_none (by simp; omega)]
    rfl

theorem filter_set_inactive_sublist (l : List Slot) (idx : Nat) (v : Slot)
    (hv : isActiveSlot v = false) :
    ((l.set idx v).filter isActiveSlot).Sublist (l.filter isActiveSlot) := by
  induction l generalizing idx with
  | nil => simp
  | cons a t ih =>
    cases idx with
    | zero =>
      rw [List.set_cons_zero, List.filter_cons, List.filter_cons,
        if_neg (by simp [hv])]
      by_cases hpa : isActiveSlot a = true
      · rw [if_pos (by simp [hpa])]
        exact List.Sublist.cons _ (List.Sublist.refl _)
      · rw [if_neg hpa]
    | succ n =>
      rw [List.set_cons_succ, List.filter_cons, List.filter_cons]
      by_cases hpa : isActiveSlot a = true
      · rw [if_pos (by simp [hpa]), if_pos (by simp [hpa])]
        exact List.Sublist.cons₂ _ (ih n)
      · rw [if_neg hpa, if_neg hpa]
        exact ih n

/-- Rooms as created satisfy both invariants: only slot 0 is active, with
color 0, and the slot indices are 0..7. -/
theorem createRoom_invariants (races : Nat → Race) (rooms : List (Nat × Room)) :
    ColorUnique (createRoom races rooms).1 ∧ WfRoom (createRoom races rooms).1 := by
  refine ⟨?_, rfl, ?_⟩
  · show (usedColors (createRoom races rooms).1).Nodup
    have h : usedColors (createRoom races rooms).1 = [0] := rfl
    rw [h]
    decide
  · have h : ((createRoom races rooms).1.playerSlots.map (fun s => s.index))
        = [0, 1, 2, 3, 4, 5, 6, 7] := rfl
    rw [h]
    decide

/-- Admitting a client preserves both invariants: the chosen slot was free
(hence inactive) and the assigned color is unused by any active slot. -/
theorem assignSlot_preserves (rnd rndColor clientId : Nat) (cls : List Nat) (room : Room)
    (slot : Slot) (hwf : WfRoom room) (hcu : ColorUnique room)
    (hfree : getFreeSlotInRoom rnd room = some slot) :
    WfRoom (assignSlotToClient clientId slot.index (getAvailableColor rndColor room) room cls) ∧
    ColorUnique (assignSlotToClient clientId slot.index (getAvailableColor rndColor room)
      room cls) := by
  obtain ⟨hlen, hidx⟩ := hwf
  simp only [getFreeSlotInRoom] at hfree
  have hmem_free : slot ∈ room.playerSlots.filter isFreeSlot := by
    by_cases hz : ((room.playerSlots.filter isFreeSlot).length == 0) = true
    · rw [if_pos hz] at hfree
      exact Option.noConfusion hfree
    · rw [if_neg hz] at hfree
      exact List.get?_mem hfree
  have hfm := List.mem_filter.mp hmem_free
  obtain ⟨k, hget⟩ : ∃ k, room.playerSlots.get? k = some slot := by
    obtain ⟨n, hn, he⟩ := List.getElem_of_mem hfm.1
    exact ⟨n, by rw [List.get?_eq_getElem?, List.getElem?_eq_getElem hn, he]⟩
  have hmapset := assign_map_eq_set clientId slot.index (getAvailableColor rndColor room)
    room.playerSlots k slot hget hidx rfl
  have hslots : (assignSlotToClient clientId slot.index (getAvailableColor rndColor room)
      room cls).playerSlots = room.playerSlots.set k
        { slot with
          clientId := some clientId, type := PlayerType.gamer, ready := false,
          color := getAvailableColor rndColor room } := by
    rw [assignSlotToClient]
    exact hmapset
  have hkidx : (room.playerSlots.map (fun s => s.index))[k]? = some slot.index := by
    rw [List.getElem?_map]
    rw [List.get?_eq_getElem?] at hget
    rw [hget]
    rfl
  constructor
  · refine ⟨?_, ?_⟩
    · rw [hslots, List.length_set]
      exact hlen
    · rw [hslots, List.map_set]
      rw [set_self_getElem? _ _ _ hkidx]
      exact hidx
  · rw [ColorUnique, usedColors, hslots]
    rw [ColorUnique, usedColors] at hcu
    have hnew := getAvailableColor_not_used rndColor room slot hlen hfm.1 hfm.2
    rw [usedColors] at hnew
    exact nodup_colors_set room.playerSlots k slot _ hget
      (isActiveSlot_of_type_none slot (isFreeSlot_fields slot hfm.2).2) rfl hcu hnew

/-- Clearing a slot on departure preserves both invariants: the cleared slot
is inactive, so the active-color list only shrinks. -/
theorem clearSlot_preserves (room : Room) (idx : Nat) (slot : Slot)
    (hget : room.playerSlots.get? idx = some slot)
    (hwf : WfRoom room) (hcu : ColorUnique room) :
    WfRoom { room with playerSlots := room.playerSlots.set idx (clearedSlot slot) } ∧
    ColorUnique { room with playerSlots := room.playerSlots.set idx (clearedSlot slot) } := by
  obtain ⟨hlen, hidx⟩ := hwf
  have hkidx : (room.playerSlots.map (fun s => s.index))[idx]? = some slot.index := by
    rw [List.getElem?_map]
    rw [List.get?_eq_getElem?] at hget
    rw [hget]
    rfl
  constructor
  · refine ⟨?_, ?_⟩
    · show (room.playerSlots.set idx (clearedSlot slot)).length = 8
      rw [List.length_set]
      exact hlen
    · show ((room.playerSlots.set idx (clearedSlot slot)).map (fun s => s.index)).Nodup
      rw [List.map_set]
      rw [show (clearedSlot slot).index = slot.index from rfl]
      rw [set_self_getElem? _ _ _ hkidx]
      exact hidx
  · rw [ColorUnique, usedColors] at hcu ⊢
    show (((room.playerSlots.set idx (clearedSlot slot)).filter isActiveSlot).map
      (fun s => s.color)).Nodup
    have hsub := filter_set_inactive_sublist room.playerSlots idx (clearedSlot slot)
      (isActiveSlot_of_type_none _ rfl)
    exact List.Nodup.sublist (hsub.map (fun s => s.color)) hcu

/-- The battle-state reset leaves exactly one active slot (the AI at
position 0), so colors are trivially unique, and slot indices and count are
untouched. -/
theorem reset_preserves (races : Nat → Race) (room : Room) :
    ColorUnique (resetRoomBattleState races room) ∧
    (WfRoom room → WfRoom (resetRoomBattleState races room)) := by
  constructor
  · rw [ColorUnique, usedColors]
    simp only [resetRoomBattleState]
    cases hps : room.playerSlots with
    | nil => simp
    | cons a t =>
      rw [List.enum_cons']
      rw [List.map_cons, List.map_map]
      rw [List.filter_cons]
      rw [if_pos (by rfl)]
      rw [List.map_cons]
      have htail : ((List.enum t).map ((fun p =>
          if p.1 == 0 then
            { p.2 with
              clientId := Option.none, name := strBytes "battle_bot", race := races 0,
              type := PlayerType.ai_hard, team := 0, ready := false, color := 0 }
          else
            { p.2 with
              clientId := Option.none, name := strBytes ("Player" ++ toString p.1),
              race := races p.1, type := PlayerType.none, team := p.1, ready := true,
              color := p.1 }) ∘ Prod.map (fun x => x + 1) id)).filter isActiveSlot = [] := by
        rw [List.filter_eq_nil_iff]
        intro b hb
        obtain ⟨y, hy, hyb⟩ := List.mem_map.mp hb
        rw [← hyb]
        simp only [Function.comp]
        rw [if_neg (by simp)]
        intro hact
        rw [isActiveSlot] at hact
        simp at hact
      rw [htail]
      simp
  · rintro ⟨hlen, hidx⟩
    refine ⟨?_, ?_⟩
    · simp only [resetRoomBattleState]
      rw [List.length_map, List.enum_length]
      exact hlen
    · simp only [resetRoomBattleState]
      rw [List.map_map]
      have hcongr : room.playerSlots.enum.map ((fun s => s.index) ∘ (fun p : Nat × Slot =>
          if p.1 == 0 then
            { p.2 with
              clientId := Option.none, name := strBytes "battle_bot", race := races 0,
              type := PlayerType.ai_hard, team := 0, ready := false, color := 0 }
          else
            { p.2 with
              clientId := Option.none, name := strBytes ("Player" ++ toString p.1),
              race := races p.1, type := PlayerType.none, team := p.1, ready := true,
              color := p.1 })) = room.playerSlots.enum.map (fun p => p.2.index) := by
        apply List.map_congr_left
        intro p hp
        simp only [Function.comp]
        by_cases h : (p.1 == 0) = true
        · rw [if_pos h]
        · rw [if_neg h]
      rw [hcongr]
      have h2 : room.playerSlots.enum.map (fun p : Nat × Slot => p.2.index)
          = (room.playerSlots.enum.map Prod.snd).map (fun s => s.index) := by
        rw [List.map_map]
        rfl
      rw [h2]
      rw [show room.playerSlots.enum.map Prod.snd = room.playerSlots from
        List.enumFrom_map_snd 0 room.playerSlots]
      exact hidx

/-- C6 amended: color uniqueness of active slots is established by room
creation and preserved by the addClientToRoom color assignment, by the
departure slot reset, and by the empty-room battle reset, alongside the
structural well-formedness these arguments need; it is NOT preserved by the
player_color dispatch, which writes an arbitrary client-chosen color (see
the counterexample). -/
theorem C6_color_uniqueness_amended :
    (∀ races rooms, ColorUnique (createRoom races rooms).1
      ∧ WfRoom (createRoom races rooms).1) ∧
    (∀ rnd rndColor clientId cls room slot, WfRoom room → ColorUnique room →
      getFreeSlotInRoom rnd room = some slot →
      WfRoom (assignSlotToClient clientId slot.index (getAvailableColor rndColor room)
        room cls) ∧
      ColorUnique (assignSlotToClient clientId slot.index (getAvailableColor rndColor room)
        room cls)) ∧
    (∀ room idx slot, room.playerSlots.get? idx = some slot → WfRoom room → ColorUnique room →
      WfRoom { room with playerSlots := room.playerSlots.set idx (clearedSlot slot) } ∧
      ColorUnique { room with playerSlots := room.playerSlots.set idx (clearedSlot slot) }) ∧
    (∀ races room, ColorUnique (resetRoomBattleState races room) ∧
      (WfRoom room → WfRoom (resetRoomBattleState races room))) :=
  ⟨createRoom_invariants,
   fun rnd rndColor clientId cls room slot hwf hcu hfree =>
     assignSlot_preserves rnd rndColor clientId cls room slot hwf hcu hfree,
   fun room idx slot hget hwf hcu => clearSlot_preserves room idx slot hget hwf hcu,
   reset_preserves⟩

def demoFreeSlot : Slot := demoRoom0.playerSlots.get ⟨1, by decide⟩

/-- Witness for C6 amended at the demonstration rooms. -/
theorem C6_color_uniqueness_amended_witness :
    (ColorUnique (createRoom races0 []).1 ∧ WfRoom (createRoom races0 []).1) ∧
    (WfRoom (assignSlotToClient 1 demoFreeSlot.index (getAvailableColor 0 demoRoom0)
        demoRoom0 [1]) ∧
      ColorUnique (assignSlotToClient 1 demoFreeSlot.index (getAvailableColor 0 demoRoom0)
        demoRoom0 [1])) ∧
    (WfRoom { demoRoom1 with
        playerSlots := demoRoom1.playerSlots.set 1 (clearedSlot demoSlotAtOne) } ∧
      ColorUnique { demoRoom1 with
        playerSlots := demoRoom1.playerSlots.set 1 (clearedSlot demoSlotAtOne) }) ∧
    (ColorUnique (resetRoomBattleState races0 demoRoom1) ∧
      (WfRoom demoRoom1 → WfRoom (resetRoomBattleState races0 demoRoom1))) :=
  ⟨C6_color_uniqueness_amended.1 races0 [],
   C6_color_uniqueness_amended.2.1 0 0 1 [1] demoRoom0 demoFreeSlot
     ⟨rfl, by decide⟩ (by decide : (usedColors demoRoom0).Nodup) (by decide),
   C6_color_uniqueness_amended.2.2.1 demoRoom1 1 demoSlotAtOne (by decide)
     ⟨rfl, by decide⟩ (by decide : (usedColors demoRoom1).Nodup),
   C6_color_uniqueness_amended.2.2.2 races0 demoRoom1⟩

end DarkColony
